import Mathlib

/-!
The members scraper of omusp-remember-api (`main.go`).

A shallow embedding of `main.go`: the handler `getMembers`, the `/health` and `/`
handlers registered in `main`, and the parts of the libraries they call
(`strings.Replace`, the `golang.org/x/net/html` node tree, the `cascadia` class and
tag selectors, and `goquery`'s `Find`, `Each`, `Text` and `AttrOr`).

Conventions.
* A Go `string` is a sequence of bytes, `GoString := List UInt8`.
* A `*html.Node` is a node of the tree together with its position in the tree
  (`NodeRef`); pointer equality is equality of positions.
* The closure passed to `Each`, which appends to the captured slice `members`,
  becomes a fold with the slice as explicit state.
* The network and the HTML parser are inputs of the handlers (`World`); a handler
  returns the reply it writes and the trace of its effects (`Outcome`).
-/

namespace Omusp

/-! ## Go strings -/

/-- A Go `string`: an immutable sequence of bytes, not necessarily valid UTF-8. -/
abbrev GoString := List UInt8

/-- The bytes of a string literal of the source file (Go source is UTF-8). -/
def lit (s : String) : GoString := s.toUTF8.data.toList

namespace strings

/-- The scan of `strings.Index`: the first offset at which `substr` occurs in the
rest `s` of the string, `i` being the offset of `s` itself; `-1` if there is none. -/
def indexFrom (substr : GoString) : GoString → Nat → Int
  | [], i => if substr = [] then (i : Int) else -1
  | c :: cs, i =>
    if substr.isPrefixOf (c :: cs) then (i : Int) else indexFrom substr cs (i + 1)

/-- `strings.Index(s, substr)`: the index of the first instance of `substr` in `s`,
or `-1` if `substr` is not present in `s`. -/
def Index (s substr : GoString) : Int := indexFrom substr s 0

/-- The scan of `strings.IndexAny` for a set `chars` of ASCII bytes. -/
def indexAnyFrom (chars : GoString) : GoString → Nat → Int
  | [], _ => -1
  | c :: cs, i => if c ∈ chars then (i : Int) else indexAnyFrom chars cs (i + 1)

/-- `strings.IndexAny(s, chars)` for `chars` made of ASCII bytes: the index of the
first byte of `s` that is in `chars`, or `-1`. -/
def IndexAny (s chars : GoString) : Int := indexAnyFrom chars s 0

/-- The loop of `strings.Count` for a non-empty `substr`:
`for { i := Index(s, substr); if i == -1 { return n }; n++; s = s[i+len(substr):] }`.
Every round removes at least one byte of `s`, so `len(s) + 1` rounds of fuel are
enough. -/
def countLoop (substr : GoString) : Nat → GoString → Nat → Nat
  | 0, _, n => n
  | fuel + 1, s, n =>
    let i := Index s substr
    if i = -1 then n
    else countLoop substr fuel (s.drop (i.toNat + substr.length)) (n + 1)

/-- `strings.Count(s, substr)` for a non-empty `substr`: the number of
non-overlapping instances of `substr` in `s`.  (For an empty `substr` Go counts
runes; that case is excluded by the argument `_h`.) -/
def Count (s substr : GoString) (_h : substr ≠ []) : Nat :=
  countLoop substr (s.length + 1) s 0

/-- The loop of `strings.Replace` for a non-empty `old`, `k` rounds left:
`j := start + Index(s[start:], old); b.WriteString(s[start:j]); b.WriteString(new);
start = j + len(old)`, and after the last round `b.WriteString(s[start:])`. -/
def replaceLoop (s old new : GoString) : Nat → Nat → GoString
  | 0, start => s.drop start
  | k + 1, start =>
    let j := start + (Index (s.drop start) old).toNat
    (s.take j).drop start ++ new ++ replaceLoop s old new k (j + old.length)

/-- `strings.Replace(s, old, new, n)` for a non-empty `old`: a copy of `s` with the
first `n` non-overlapping instances of `old` replaced by `new`; all of them if
`n < 0`.  (For an empty `old` Go inserts `new` between runes; that case is excluded
by the argument `hold`.) -/
def Replace (s old new : GoString) (n : Int) (hold : old ≠ []) : GoString :=
  if old = new ∨ n = 0 then s
  else
    let m : Int := Count s old hold
    if m = 0 then s
    else
      let n1 : Int := if n < 0 ∨ m < n then m else n
      replaceLoop s old new n1.toNat 0

end strings

/-! ## The node tree of `golang.org/x/net/html` -/

namespace html

/-- `html.NodeType`. -/
inductive NodeType where
  | ErrorNode
  | TextNode
  | DocumentNode
  | ElementNode
  | CommentNode
  | DoctypeNode
  | RawNode
  deriving DecidableEq, Repr

/-- `html.Attribute`. -/
structure Attribute where
  Namespace : GoString
  Key : GoString
  Val : GoString
  deriving DecidableEq, Repr

/-- `html.Node`: its type, its data (the tag name of an element, the text of a text
node), its attributes and, in place of the `FirstChild`/`NextSibling` chain, the
list of its children. -/
inductive Node where
  | mk (type : NodeType) (Data : GoString) (Attr : List Attribute) (children : List Node)

/-- The field `Type` of a node. -/
def Node.type : Node → NodeType
  | .mk t _ _ _ => t

/-- The field `Data` of a node. -/
def Node.Data : Node → GoString
  | .mk _ d _ _ => d

/-- The field `Attr` of a node. -/
def Node.Attr : Node → List Attribute
  | .mk _ _ a _ => a

/-- The children of a node, from `FirstChild` along `NextSibling`. -/
def Node.children : Node → List Node
  | .mk _ _ _ cs => cs

end html

open html

/-- A `*html.Node`: the node and the place it has in its document, given as the
child indices from the node up to the root.  Two pointers are equal when the places
are. -/
structure NodeRef where
  path : List Nat
  node : Node

/-! ## The selectors of `cascadia` used by `main.go` -/

namespace cascadia

/-- The compiled selectors that occur in `main.go`: `.name` compiles to a class
selector, `img` to a tag selector. -/
inductive Selector where
  | classSelector (cls : GoString)
  | tagSelector (tag : GoString)

/-- `matchAttribute(n, key, f)`: `n` is an element and has an attribute `key` whose
value satisfies `f`. -/
def matchAttribute (n : Node) (key : GoString) (f : GoString → Bool) : Bool :=
  if n.type ≠ NodeType.ElementNode then false
  else n.Attr.any (fun a => a.Key == key && f a.Val)

/-- The loop of `matchInclude`: `for s != "" { i := IndexAny(s, " \t\r\n\f");
if i == -1 { return s == val }; if s[:i] == val { return true }; s = s[i+1:] };
return false`.  Every round removes at least one byte of `s`. -/
def matchIncludeLoop (val : GoString) : Nat → GoString → Bool
  | 0, _ => false
  | fuel + 1, s =>
    if s = [] then false
    else
      let i := strings.IndexAny s [32, 9, 13, 10, 12]
      if i = -1 then s == val
      else if s.take i.toNat == val then true
      else matchIncludeLoop val fuel (s.drop (i.toNat + 1))

/-- `matchInclude(val, s, false)`: `val` is one of the whitespace-separated words of
`s`. -/
def matchInclude (val s : GoString) : Bool := matchIncludeLoop val (s.length + 1) s

/-- `Match(n)` of a compiled selector. -/
def Selector.Match : Selector → Node → Bool
  | .classSelector cls, n => matchAttribute n (lit "class") (fun s => matchInclude cls s)
  | .tagSelector tag, n => n.type = NodeType.ElementNode && n.Data == tag

mutual
/-- `matchAllInto(n, storage)`: `n` if it matches, then the matches below each child
in turn; the nodes appended to `storage`. -/
def matchAll (m : Node → Bool) (p : List Nat) : Node → List NodeRef
  | .mk t d a cs =>
    (if m (.mk t d a cs) then [⟨p, .mk t d a cs⟩] else []) ++ matchAllChildren m p 0 cs
/-- The loop of `matchAllInto` over the children, `i` the index of the next one. -/
def matchAllChildren (m : Node → Bool) (p : List Nat) : Nat → List Node → List NodeRef
  | _, [] => []
  | i, c :: cs => matchAll m (i :: p) c ++ matchAllChildren m p (i + 1) cs
end

/-- `MatchAll(n)`: the nodes of the tree rooted at `n` that match, `n` included. -/
def Selector.MatchAll (sel : Selector) (r : NodeRef) : List NodeRef :=
  matchAll sel.Match r.path r.node

end cascadia

open cascadia

/-! ## `goquery` -/

namespace goquery

/-- `goquery.Selection`: the slice `Nodes`. -/
structure Selection where
  Nodes : List NodeRef

/-- `isInSlice(slice, node)`. -/
def isInSlice (slice : List NodeRef) (node : NodeRef) : Bool :=
  slice.any (fun n => n.path == node.path)

/-- `appendWithoutDuplicates(target, nodes, set)`: appends the nodes that are not
yet in `target`. -/
def appendWithoutDuplicates (target : List NodeRef) : List NodeRef → List NodeRef
  | [] => target
  | n :: nodes =>
    if isInSlice target n then appendWithoutDuplicates target nodes
    else appendWithoutDuplicates (target ++ [n]) nodes

/-- The loop of `mapNodes`, `i` the index of the next node. -/
def mapNodesLoop (f : Nat → NodeRef → List NodeRef) :
    Nat → List NodeRef → List NodeRef → List NodeRef
  | _, [], result => result
  | i, n :: nodes, result =>
    let vals := f i n
    mapNodesLoop f (i + 1) nodes
      (if vals.length > 0 then appendWithoutDuplicates result vals else result)

/-- `mapNodes(nodes, f)`: the results of `f` on each node, without duplicates. -/
def mapNodes (nodes : List NodeRef) (f : Nat → NodeRef → List NodeRef) : List NodeRef :=
  mapNodesLoop f 0 nodes []

/-- The loop over the children in `findWithMatcher`: `for c := n.FirstChild; c != nil;
c = c.NextSibling { if c.Type == html.ElementNode { result = append(result,
m.MatchAll(c)...) } }`, `i` the index of the next child. -/
def findInChildren (sel : Selector) (p : List Nat) : Nat → List Node → List NodeRef
  | _, [] => []
  | i, c :: cs =>
    (if c.type = NodeType.ElementNode then sel.MatchAll ⟨i :: p, c⟩ else [])
      ++ findInChildren sel p (i + 1) cs

/-- `findWithMatcher(nodes, m)`. -/
def findWithMatcher (nodes : List NodeRef) (sel : Selector) : List NodeRef :=
  mapNodes nodes (fun _ n => findInChildren sel n.path 0 n.node.children)

/-- `(*Selection).Find(selector)`, the selector given compiled: the descendants of
the nodes of the selection that match. -/
def Selection.Find (s : Selection) (sel : Selector) : Selection :=
  ⟨findWithMatcher s.Nodes sel⟩

mutual
/-- The closure `f` of `Text`: writes the data of `n` if it is a text node, then
visits the children. -/
def textOf : Node → GoString
  | .mk t d _ cs => (if t = NodeType.TextNode then d else []) ++ textOfChildren cs
/-- The loop of `f` over the children. -/
def textOfChildren : List Node → GoString
  | [] => []
  | c :: cs => textOf c ++ textOfChildren cs
end

/-- The loop `for _, n := range s.Nodes { f(n) }` of `Text`, the buffer being the
result. -/
def textOfNodes : List NodeRef → GoString
  | [] => []
  | n :: ns => textOf n.node ++ textOfNodes ns

/-- `(*Selection).Text()`: the combined text contents of each node of the selection,
descendants included. -/
def Selection.Text (s : Selection) : GoString := textOfNodes s.Nodes

/-- `getAttributeValue(attrName, n)`: the value of the first attribute of `n` with
that key. -/
def getAttributeValue (attrName : GoString) (n : Node) : Option GoString :=
  (n.Attr.find? (fun a => a.Key == attrName)).map (fun a => a.Val)

/-- `(*Selection).AttrOr(attrName, defaultValue)`: the attribute of the first node
of the selection, or the default if the selection is empty or the node has no such
attribute. -/
def Selection.AttrOr (s : Selection) (attrName defaultValue : GoString) : GoString :=
  match s.Nodes with
  | [] => defaultValue
  | n :: _ =>
    match getAttributeValue attrName n.node with
    | none => defaultValue
    | some val => val

/-- The loop of `(*Selection).Each(f)`: `f(i, newSingleSelection(n, s.document))` for
each node in turn.  The state that the closure updates is passed along. -/
def eachLoop {σ : Type} (f : Nat → Selection → σ → σ) : Nat → List NodeRef → σ → σ
  | _, [], st => st
  | i, n :: ns, st => eachLoop f (i + 1) ns (f i ⟨[n]⟩ st)

/-- `(*Selection).Each(f)`. -/
def Selection.Each {σ : Type} (s : Selection) (f : Nat → Selection → σ → σ) (st : σ) : σ :=
  eachLoop f 0 s.Nodes st

/-- The selection of a `goquery.Document`: its root node alone. -/
def documentSelection (root : Node) : Selection := ⟨[⟨[], root⟩]⟩

end goquery

open goquery strings

/-! ## `main.go` -/

/-- A Go `error`, by its message. -/
abbrev GoError := GoString

/-- An `io.ReadCloser`: the bytes it delivers, and the error that ends the stream
if it does not end with `io.EOF`. -/
structure ReadCloser where
  data : GoString
  err : Option GoError

namespace http

/-- `http.StatusOK`. -/
def StatusOK : Int := 200

/-- `http.StatusInternalServerError`. -/
def StatusInternalServerError : Int := 500

/-- The fields of `http.Response` that `main.go` reads. -/
structure Response where
  Status : GoString
  StatusCode : Int
  Body : ReadCloser

end http

/-- What a handler reaches outside the process: `http.Get` and
`goquery.NewDocumentFromReader` (which reads the body and runs `html.Parse`). -/
structure World where
  Get : GoString → Except GoError http.Response
  NewDocumentFromReader : ReadCloser → Except GoError Node

/-- The struct `Member`; every field is serialised (no tag has `omitempty`). -/
structure Member where
  Grade : GoString
  Name : GoString
  NameEn : GoString
  Bio : GoString
  ImgPath : GoString
  deriving DecidableEq, Repr

/-- The value a handler hands to `c.JSON` or `c.HTML`. -/
inductive Payload where
  /-- The value `struct{ Error string }{Error: ...}`. -/
  | Error (Error : GoString)
  /-- The value `struct{ Members []Member }{Members: ...}`, key `members`. -/
  | Members (Members : List Member)
  /-- The value `struct{ Status string }{Status: ...}`. -/
  | Status (Status : GoString)
  /-- The text given to `c.HTML`. -/
  | HTML (html : GoString)
  deriving DecidableEq, Repr

/-- The reply written by `c.JSON(code, i)` or `c.HTML(code, html)`. -/
structure Reply where
  code : Int
  body : Payload
  deriving DecidableEq, Repr

/-- What a handler does besides writing its reply. -/
inductive Effect where
  /-- The call `http.Get(url)`. -/
  | Get (url : GoString)
  /-- The call `log.Println(err)`. -/
  | Println (err : GoError)
  /-- The call `log.Printf(format, code, status)`. -/
  | Printf (format : GoString) (code : Int) (status : GoString)
  /-- The deferred `res.Body.Close()`. -/
  | Close
  deriving DecidableEq, Repr

/-- The result of running a handler: the reply and the effects in order. -/
structure Outcome where
  reply : Reply
  trace : List Effect
  deriving DecidableEq, Repr

/-- The request that `echo.Context` carries. -/
structure Context where
  Method : GoString
  Path : GoString

/-- The selector `.user-card`. -/
def userCard : Selector := .classSelector (lit "user-card")

/-- The selector `.user-pos`. -/
def userPos : Selector := .classSelector (lit "user-pos")

/-- The selector `.user-name-ja`. -/
def userNameJa : Selector := .classSelector (lit "user-name-ja")

/-- The selector `.user-name-eng`. -/
def userNameEng : Selector := .classSelector (lit "user-name-eng")

/-- The selector `.user-email`. -/
def userEmail : Selector := .classSelector (lit "user-email")

/-- The selector `img`. -/
def img : Selector := .tagSelector (lit "img")

/-- The constant `"https://omusp.jp"` of line 49. -/
def domain : GoString := lit "https://omusp.jp"

/-- Line 49: `strings.Replace(s.Find("img").AttrOr("src", ""), "https://omusp.jp", "", 1)`. -/
def image_path (s : Selection) : GoString :=
  strings.Replace ((s.Find img).AttrOr (lit "src") (lit "")) domain (lit "") 1 (by decide)

/-- Lines 45-56: the `Member` that the closure given to `Each` builds from the card
`s`. -/
def member (s : Selection) : Member :=
  { Grade := (s.Find userPos).Text
    Name := (s.Find userNameJa).Text
    NameEn := (s.Find userNameEng).Text
    Bio := (s.Find userEmail).Text
    ImgPath := image_path s }

/-- Lines 42-58: `members := []Member{}` and the `Each` over the cards, whose closure
does `members = append(members, member)`. -/
def collectMembers (doc : Node) : List Member :=
  ((documentSelection doc).Find userCard).Each
    (fun _ s members => members ++ [member s]) []

/-- The handler `getMembers`. -/
def getMembers (_c : Context) (w : World) : Outcome :=
  match w.Get (lit "https://omusp.jp/members") with
  | .error err =>
    { reply := ⟨http.StatusInternalServerError,
        .Error (lit "Failed to get members, cannot connect to omusp.jp")⟩
      trace := [.Get (lit "https://omusp.jp/members"), .Println err] }
  | .ok res =>
    if res.StatusCode ≠ 200 then
      { reply := ⟨http.StatusInternalServerError,
          .Error (lit "Failed to get members, omusp.jp returned non-200 status code")⟩
        trace := [.Get (lit "https://omusp.jp/members"),
          .Printf (lit "status code error: %d %s") res.StatusCode res.Status, .Close] }
    else
      match w.NewDocumentFromReader res.Body with
      | .error err =>
        { reply := ⟨http.StatusInternalServerError,
            .Error (lit "Failed to get members, cannot parse HTML from omusp.jp")⟩
          trace := [.Get (lit "https://omusp.jp/members"), .Println err, .Close] }
      | .ok doc =>
        { reply := ⟨http.StatusOK, .Members (collectMembers doc)⟩
          trace := [.Get (lit "https://omusp.jp/members"), .Close] }

/-- The handler of `GET /`. -/
def hello (_c : Context) (_w : World) : Outcome :=
  { reply := ⟨http.StatusOK, .HTML (lit "Hello, Azure Container Apps!")⟩, trace := [] }

/-- The handler of `GET /health`. -/
def health (_c : Context) (_w : World) : Outcome :=
  { reply := ⟨http.StatusOK, .Status (lit "OK")⟩, trace := [] }

/-- The routes that `main` registers with `e.GET`: path and handler. -/
def routes : List (GoString × (Context → World → Outcome)) :=
  [(lit "/", hello), (lit "/api/members", getMembers), (lit "/health", health)]

/-! ## The document seen as a list of nodes in document order -/

mutual
/-- The nodes of the tree rooted at a node, the node first, in document order. -/
def subtree : Node → List Node
  | .mk t d a cs => .mk t d a cs :: subtreeChildren cs
/-- The nodes of the trees rooted at the nodes of a list, in document order. -/
def subtreeChildren : List Node → List Node
  | [] => []
  | c :: cs => subtree c ++ subtreeChildren cs
end

/-- The nodes strictly below a node, in document order. -/
def descendants (n : Node) : List Node := subtreeChildren n.children

/-- The nodes strictly below `n` that match `sel`, in document order. -/
def matching (sel : Selector) (n : Node) : List Node := (descendants n).filter sel.Match

/-- A tree as `html.Parse` builds it: below the root only elements have children
(text, comment and doctype nodes are leaves). -/
def parsed (n : Node) : Bool :=
  (descendants n).all (fun d => d.type = NodeType.ElementNode || d.children.isEmpty)

/-- The text contents of the nodes of a list, one after the other. -/
def textOfAll : List Node → GoString
  | [] => []
  | n :: ns => textOf n ++ textOfAll ns

/-- The `src` read from a list of `img` elements: that of the first one, or the
empty string if there is no element or the first has no `src`. -/
def srcOfFirst : List Node → GoString
  | [] => []
  | n :: _ => (getAttributeValue (lit "src") n).getD []

/-- The member read off a card of a parsed document, in terms of the nodes below the
card in document order: each text field from the nodes matching its own selector,
the image path from the first `img` element. -/
def recordOf (card : Node) : Member :=
  { Grade := textOfAll (matching userPos card)
    Name := textOfAll (matching userNameJa card)
    NameEn := textOfAll (matching userNameEng card)
    Bio := textOfAll (matching userEmail card)
    ImgPath := strings.Replace (srcOfFirst (matching img card)) domain [] 1 (by decide) }

/-- An element node with a `class` attribute. -/
def el (tag cls : String) (children : List Node) : Node :=
  .mk .ElementNode (lit tag) [⟨[], lit "class", lit cls⟩] children

/-- A text node. -/
def txt (s : String) : Node := .mk .TextNode (lit s) [] []

/-- The card of the example of the spec. -/
def taroCard : Node :=
  el "div" "user-card"
    [ .mk .ElementNode (lit "img") [⟨[], lit "src", lit "https://omusp.jp/img/taro.png"⟩] [],
      el "p" "user-name-ja" [txt "山田太郎"],
      el "p" "user-name-eng" [txt "Taro Yamada"],
      el "p" "user-pos" [txt "B4"],
      el "p" "user-email" [txt "taro@example.com"] ]

/-- A document holding the card of the example. -/
def taroDoc : Node :=
  .mk .DocumentNode [] []
    [ .mk .DoctypeNode (lit "html") [] [],
      .mk .ElementNode (lit "html") []
        [ .mk .ElementNode (lit "head") [] [],
          .mk .ElementNode (lit "body") [] [taroCard] ] ]

/-- A card whose only `img` has a `src` that holds the domain, but not at its
start. -/
def proxiedCard : Node :=
  el "div" "user-card"
    [ .mk .ElementNode (lit "img")
        [⟨[], lit "src", lit "/proxy?u=https://omusp.jp/img/a.png"⟩] [] ]

/-- A card whose only `img` has a `src` without the domain. -/
def localCard : Node :=
  el "div" "user-card"
    [ .mk .ElementNode (lit "img") [⟨[], lit "src", lit "/img/local.png"⟩] [] ]

/-- A card whose only `img` has a `src` that holds the domain twice. -/
def doubledCard : Node :=
  el "div" "user-card"
    [ .mk .ElementNode (lit "img")
        [⟨[], lit "src", lit "https://omusp.jp/r?next=https://omusp.jp/img/a.png"⟩] [] ]

/-- A card with no name, no position and an `img` without `src`, followed by a card
with nothing at all. -/
def sparseDoc : Node :=
  .mk .DocumentNode [] []
    [ .mk .ElementNode (lit "html") []
        [ .mk .ElementNode (lit "body") []
            [ el "div" "user-card"
                [ .mk .ElementNode (lit "img") [⟨[], lit "alt", lit "photo"⟩] [],
                  el "p" "user-email" [txt "a@example.com"] ],
              el "div" "user-card" [] ] ] ]

/-- A card that holds two `.user-pos` nodes, the second one inside a nested card. -/
def nestedCard : Node :=
  el "div" "user-card"
    [ el "p" "user-pos" [txt "M1"],
      el "div" "user-card" [el "p" "user-pos" [txt "B4"], el "p" "user-name-ja" [txt "太郎"]] ]

/-- A document without any card. -/
def emptyDoc : Node :=
  .mk .DocumentNode [] []
    [ .mk .ElementNode (lit "html") []
        [ .mk .ElementNode (lit "head") [] [], .mk .ElementNode (lit "body") [] [] ] ]

/-- A world in which the upstream answers with the given status and the body parses
to the given document. -/
def answering (code : Int) (status : String) (doc : Node) : World :=
  { Get := fun _ => .ok ⟨lit status, code, ⟨[], none⟩⟩
    NewDocumentFromReader := fun _ => .ok doc }

/-- A world in which the upstream cannot be reached. -/
def unreachable : World :=
  { Get := fun _ => .error (lit "dial tcp: lookup omusp.jp: no such host")
    NewDocumentFromReader := fun _ => .ok taroDoc }

/-- A request for the path given. -/
def get (path : String) : Context := ⟨lit "GET", lit path⟩

/-! ## Facts about the string functions -/

theorem indexFrom_of_isPrefixOf (substr s : GoString) (i : Nat)
    (h : substr.isPrefixOf s = true) : indexFrom substr s i = i := by
  cases s with
  | nil =>
    have : substr = [] := by
      cases substr with
      | nil => rfl
      | cons a l => simp [List.isPrefixOf] at h
    simp [indexFrom, this]
  | cons c cs => simp [indexFrom, h]

theorem indexFrom_cases (substr : GoString) :
    ∀ (s : GoString) (i : Nat), indexFrom substr s i = -1 ∧ ¬ substr <:+: s ∨
      ∃ k, indexFrom substr s i = ((i + k : Nat) : Int) ∧ k + substr.length ≤ s.length ∧
        (s.drop k).take substr.length = substr
  | [], i => by
    by_cases h : substr = []
    · right; exact ⟨0, by simp [indexFrom, h]⟩
    · left; simp [indexFrom, h]
  | c :: cs, i => by
    by_cases h : substr.isPrefixOf (c :: cs) = true
    · right
      refine ⟨0, by simp [indexFrom, h], ?_, ?_⟩
      · have := (List.isPrefixOf_iff_prefix.1 h).length_le
        simpa using this
      · have hp := List.isPrefixOf_iff_prefix.1 h
        obtain ⟨t, ht⟩ := hp
        rw [List.drop_zero, ← ht]; simp
    · rcases indexFrom_cases substr cs (i + 1) with ⟨h1, h2⟩ | ⟨k, h1, h2, h3⟩
      · left
        refine ⟨by simp [indexFrom, h, h1], ?_⟩
        intro hin
        rcases List.infix_cons_iff.1 hin with hp | hp
        · exact h (List.isPrefixOf_iff_prefix.2 hp)
        · exact h2 hp
      · right
        refine ⟨k + 1, ?_, ?_, ?_⟩
        · simp [indexFrom, h, h1]; omega
        · simp; omega
        · simpa using h3

theorem Index_eq_neg_one_iff (s substr : GoString) :
    Index s substr = -1 ↔ ¬ substr <:+: s := by
  unfold Index
  rcases indexFrom_cases substr s 0 with ⟨h1, h2⟩ | ⟨k, h1, h2, h3⟩
  · simp [h1, h2]
  · constructor
    · intro h; rw [h1] at h; omega
    · intro h
      exfalso; apply h
      refine ⟨s.take k, s.drop (k + substr.length), ?_⟩
      have : s.drop k = substr ++ s.drop (k + substr.length) := by
        conv_lhs => rw [← List.take_append_drop substr.length (s.drop k)]
        rw [h3, List.drop_drop]
      rw [List.append_assoc, ← this, List.take_append_drop]

theorem countLoop_ge (substr : GoString) :
    ∀ (fuel : Nat) (s : GoString) (n : Nat), n ≤ countLoop substr fuel s n
  | 0, _, n => by simp [countLoop]
  | fuel + 1, s, n => by
    simp only [countLoop]
    split
    · exact Nat.le_refl n
    · exact Nat.le_trans (Nat.le_succ n) (countLoop_ge substr fuel _ (n + 1))

theorem Count_eq_zero_iff (s substr : GoString) (h : substr ≠ []) :
    Count s substr h = 0 ↔ Index s substr = -1 := by
  unfold Count
  simp only [countLoop]
  constructor
  · intro h0
    by_contra hne
    simp only [if_neg hne] at h0
    have hge := countLoop_ge substr s.length
      (s.drop ((Index s substr).toNat + substr.length)) (0 + 1)
    rw [h0] at hge
    omega
  · intro h1; simp [h1]

theorem Index_drop_length_lt (s substr : GoString) (h : substr ≠ [])
    (hi : Index s substr ≠ -1) :
    (s.drop ((Index s substr).toNat + substr.length)).length < s.length := by
  unfold Index at *
  rcases indexFrom_cases substr s 0 with ⟨h1, _⟩ | ⟨k, h1, h2, _⟩
  · exact absurd h1 hi
  · rw [h1]
    have : 0 < substr.length := List.length_pos.2 h
    simp
    omega

/-- The loop of `Count` ends within its fuel: any two amounts of fuel above the
length of `s` give the same count. -/
theorem countLoop_fuel (substr : GoString) (h : substr ≠ []) :
    ∀ (f1 f2 : Nat) (s : GoString) (n : Nat), s.length < f1 → s.length < f2 →
      countLoop substr f1 s n = countLoop substr f2 s n
  | 0, _, _, _, h1, _ => by omega
  | _ + 1, 0, _, _, _, h2 => by omega
  | f1 + 1, f2 + 1, s, n, h1, h2 => by
    simp only [countLoop]
    by_cases hi : Index s substr = -1
    · simp [hi]
    · simp only [hi, if_false]
      have := Index_drop_length_lt s substr h hi
      exact countLoop_fuel substr h f1 f2 _ _ (by omega) (by omega)

/-- The loop of `matchInclude` ends within its fuel: any two amounts of fuel above
the length of `s` give the same answer. -/
theorem matchIncludeLoop_fuel (val : GoString) :
    ∀ (f1 f2 : Nat) (s : GoString), s.length < f1 → s.length < f2 →
      matchIncludeLoop val f1 s = matchIncludeLoop val f2 s
  | 0, _, _, h1, _ => by omega
  | _ + 1, 0, _, _, h2 => by omega
  | f1 + 1, f2 + 1, s, h1, h2 => by
    simp only [matchIncludeLoop]
    by_cases hs : s = []
    · simp [hs]
    · simp only [hs, if_false]
      have hpos : 0 < s.length := List.length_pos.2 hs
      split
      · rfl
      · split
        · rfl
        · apply matchIncludeLoop_fuel val f1 f2
          · rw [List.length_drop]; omega
          · rw [List.length_drop]; omega

/-- With `n = 1` and `old` different from `new`, `Replace` returns `s` if `old` does
not occur, and else replaces the occurrence that `Index` finds. -/
theorem Replace_one (s old new : GoString) (h : old ≠ []) (hne : old ≠ new) :
    Replace s old new 1 h =
      if Index s old = -1 then s
      else s.take (Index s old).toNat ++ new ++ s.drop ((Index s old).toNat + old.length) := by
  unfold Replace
  by_cases hi : Index s old = -1
  · have hc := (Count_eq_zero_iff s old h).2 hi
    simp [hne, hc, hi]
  · have hc : Count s old h ≠ 0 := fun hc => hi ((Count_eq_zero_iff s old h).1 hc)
    have hpos : ¬ ((Count s old h : Int) < 1) := by omega
    have hz : ¬ ((Count s old h : Int) = 0) := by omega
    simp [hne, hz, hi, hpos, replaceLoop]

theorem Replace_one_of_absent (s old new : GoString) (h : old ≠ []) (hne : old ≠ new)
    (hs : ¬ old <:+: s) : Replace s old new 1 h = s := by
  rw [Replace_one s old new h hne, if_pos ((Index_eq_neg_one_iff s old).2 hs)]

theorem Replace_one_of_append (old rest new : GoString) (h : old ≠ []) (hne : old ≠ new) :
    Replace (old ++ rest) old new 1 h = new ++ rest := by
  have hi : Index (old ++ rest) old = 0 := by
    unfold Index
    have := indexFrom_of_isPrefixOf old (old ++ rest) 0
      (List.isPrefixOf_iff_prefix.2 (List.prefix_append old rest))
    simpa using this
  rw [Replace_one _ old new h hne, hi]
  simp

theorem Replace_one_empty_length (s old : GoString) (h : old ≠ []) (hs : old <:+: s) :
    (Replace s old [] 1 h).length + old.length = s.length := by
  have hi : Index s old ≠ -1 := fun hi => (Index_eq_neg_one_iff s old).1 hi hs
  rw [Replace_one s old [] h h, if_neg hi]
  unfold Index at *
  rcases indexFrom_cases old s 0 with ⟨h1, _⟩ | ⟨k, h1, h2, _⟩
  · exact absurd h1 hi
  · rw [h1]
    simp
    omega

/-! ## Facts about the traversals -/

theorem Match_element (sel : Selector) (n : Node) (h : sel.Match n = true) :
    n.type = NodeType.ElementNode := by
  cases sel with
  | classSelector cls =>
    simp only [Selector.Match, matchAttribute] at h
    by_contra hne
    simp [hne] at h
  | tagSelector tag =>
    simp only [Selector.Match, Bool.and_eq_true, decide_eq_true_eq] at h
    exact h.1

theorem subtree_eq (n : Node) : subtree n = n :: descendants n := by
  cases n with
  | mk t d a cs => simp [subtree, descendants, Node.children]

theorem subtree_leaf (n : Node) (h : n.children = []) : subtree n = [n] := by
  rw [subtree_eq, descendants, h]; rfl

theorem mem_subtreeChildren_of_mem {c : Node} :
    ∀ {cs : List Node}, c ∈ cs → c ∈ subtreeChildren cs
  | [], h => by simp at h
  | x :: xs, h => by
    rw [subtreeChildren, List.mem_append]
    rcases List.mem_cons.1 h with rfl | h
    · left; rw [subtree_eq]; exact List.mem_cons_self _ _
    · right; exact mem_subtreeChildren_of_mem h

mutual
theorem subtree_contiguous : ∀ (n d : Node), d ∈ subtree n → subtree d <:+: subtree n
  | .mk t dt a cs, d, h => by
    rw [subtree] at h
    rcases List.mem_cons.1 h with rfl | h
    · exact List.infix_refl _
    · rw [subtree]
      exact List.infix_cons (subtreeChildren_contiguous cs d h)
theorem subtreeChildren_contiguous :
    ∀ (cs : List Node) (d : Node), d ∈ subtreeChildren cs → subtree d <:+: subtreeChildren cs
  | [], d, h => by simp [subtreeChildren] at h
  | c :: cs, d, h => by
    rw [subtreeChildren] at h ⊢
    rcases List.mem_append.1 h with h | h
    · exact (subtree_contiguous c d h).trans ⟨[], subtreeChildren cs, by simp⟩
    · exact (subtreeChildren_contiguous cs d h).trans ⟨subtree c, [], by simp⟩
end

theorem descendants_contiguous (n d : Node) (h : d ∈ descendants n) :
    descendants d <:+: descendants n := by
  have h1 : subtree d <:+: descendants n := subtreeChildren_contiguous _ d h
  have h2 : descendants d <:+: subtree d := by
    rw [subtree_eq]; exact ⟨[d], [], by simp⟩
  exact h2.trans h1

theorem parsed_of_mem (n d : Node) (hn : parsed n = true) (h : d ∈ descendants n) :
    parsed d = true := by
  unfold parsed at *
  rw [List.all_eq_true] at *
  intro x hx
  exact hn x ((descendants_contiguous n d h).subset hx)

theorem parsed_child (n : Node) (hn : parsed n = true) (c : Node) (hc : c ∈ n.children)
    (ht : c.type ≠ NodeType.ElementNode) : c.children = [] := by
  unfold parsed at hn
  rw [List.all_eq_true] at hn
  have := hn c (mem_subtreeChildren_of_mem hc)
  simp [ht] at this
  exact this

mutual
theorem matchAll_node (m : Node → Bool) : ∀ (p : List Nat) (n : Node),
    (matchAll m p n).map NodeRef.node = (subtree n).filter m
  | p, .mk t d a cs => by
    rw [matchAll, subtree, List.map_append, matchAllChildren_node m p 0 cs]
    by_cases h : m (.mk t d a cs) = true <;> simp [h]
theorem matchAllChildren_node (m : Node → Bool) : ∀ (p : List Nat) (i : Nat) (cs : List Node),
    (matchAllChildren m p i cs).map NodeRef.node = (subtreeChildren cs).filter m
  | _, _, [] => by simp [matchAllChildren, subtreeChildren]
  | p, i, c :: cs => by
    rw [matchAllChildren, subtreeChildren, List.map_append, List.filter_append,
      matchAll_node m (i :: p) c, matchAllChildren_node m p (i + 1) cs]
end

mutual
theorem matchAll_path (m : Node → Bool) : ∀ (p : List Nat) (n : Node) (r : NodeRef),
    r ∈ matchAll m p n → p <:+ r.path
  | p, .mk t d a cs, r, h => by
    rw [matchAll, List.mem_append] at h
    rcases h with h | h
    · split at h
      · rw [List.mem_singleton] at h
        subst h
        exact List.suffix_refl _
      · simp at h
    · obtain ⟨j, _, hj⟩ := matchAllChildren_path m p 0 cs r h
      exact (List.suffix_cons j p).trans hj
theorem matchAllChildren_path (m : Node → Bool) :
    ∀ (p : List Nat) (i : Nat) (cs : List Node) (r : NodeRef),
      r ∈ matchAllChildren m p i cs → ∃ j, i ≤ j ∧ (j :: p) <:+ r.path
  | _, _, [], r, h => by simp [matchAllChildren] at h
  | p, i, c :: cs, r, h => by
    rw [matchAllChildren, List.mem_append] at h
    rcases h with h | h
    · exact ⟨i, Nat.le_refl i, matchAll_path m (i :: p) c r h⟩
    · obtain ⟨j, hij, hj⟩ := matchAllChildren_path m p (i + 1) cs r h
      exact ⟨j, by omega, hj⟩
end

theorem path_ne_of_index_ne {p q1 q2 : List Nat} {i j : Nat}
    (h1 : (i :: p) <:+ q1) (h2 : (j :: p) <:+ q2) (hij : i ≠ j) : q1 ≠ q2 := by
  intro heq
  subst heq
  rcases List.suffix_or_suffix_of_suffix h1 h2 with h | h
  · have := h.eq_of_length (by simp)
    injection this with h3 _
    exact hij h3
  · have := h.eq_of_length (by simp)
    injection this with h3 _
    exact hij h3.symm

theorem path_ne_of_child {p q : List Nat} {j : Nat} (h : (j :: p) <:+ q) : p ≠ q := by
  intro heq
  subst heq
  have := h.length_le
  simp at this

mutual
theorem matchAll_nodup (m : Node → Bool) : ∀ (p : List Nat) (n : Node),
    ((matchAll m p n).map NodeRef.path).Nodup
  | p, .mk t d a cs => by
    rw [matchAll, List.map_append, List.nodup_append]
    refine ⟨?_, matchAllChildren_nodup m p 0 cs, ?_⟩
    · split <;> simp
    · intro q hq1 hq2
      obtain ⟨r, hr, rfl⟩ := List.mem_map.1 hq2
      obtain ⟨j, _, hj⟩ := matchAllChildren_path m p 0 cs r hr
      split at hq1
      · simp at hq1
        exact path_ne_of_child hj hq1.symm
      · simp at hq1
theorem matchAllChildren_nodup (m : Node → Bool) :
    ∀ (p : List Nat) (i : Nat) (cs : List Node),
      ((matchAllChildren m p i cs).map NodeRef.path).Nodup
  | _, _, [] => by simp [matchAllChildren]
  | p, i, c :: cs => by
    rw [matchAllChildren, List.map_append, List.nodup_append]
    refine ⟨matchAll_nodup m (i :: p) c, matchAllChildren_nodup m p (i + 1) cs, ?_⟩
    intro q hq1 hq2
    obtain ⟨r1, hr1, rfl⟩ := List.mem_map.1 hq1
    obtain ⟨r2, hr2, h12⟩ := List.mem_map.1 hq2
    have h1 := matchAll_path m (i :: p) c r1 hr1
    obtain ⟨j, hij, hj⟩ := matchAllChildren_path m p (i + 1) cs r2 hr2
    exact path_ne_of_index_ne h1 hj (by omega) h12.symm
end

theorem findInChildren_path (sel : Selector) (p : List Nat) :
    ∀ (cs : List Node) (i : Nat) (r : NodeRef),
      r ∈ findInChildren sel p i cs → ∃ j, i ≤ j ∧ (j :: p) <:+ r.path
  | [], _, r, h => by simp [findInChildren] at h
  | c :: cs, i, r, h => by
    rw [findInChildren, List.mem_append] at h
    rcases h with h | h
    · split at h
      · exact ⟨i, Nat.le_refl i, matchAll_path _ (i :: p) c r h⟩
      · simp at h
    · obtain ⟨j, hij, hj⟩ := findInChildren_path sel p cs (i + 1) r h
      exact ⟨j, by omega, hj⟩

theorem findInChildren_nodup (sel : Selector) (p : List Nat) :
    ∀ (cs : List Node) (i : Nat), ((findInChildren sel p i cs).map NodeRef.path).Nodup
  | [], _ => by simp [findInChildren]
  | c :: cs, i => by
    rw [findInChildren, List.map_append, List.nodup_append]
    refine ⟨?_, findInChildren_nodup sel p cs (i + 1), ?_⟩
    · split
      · exact matchAll_nodup _ (i :: p) c
      · simp
    · intro q hq1 hq2
      obtain ⟨r1, hr1, rfl⟩ := List.mem_map.1 hq1
      obtain ⟨r2, hr2, h12⟩ := List.mem_map.1 hq2
      split at hr1
      · have h1 := matchAll_path _ (i :: p) c r1 hr1
        obtain ⟨j, hij, hj⟩ := findInChildren_path sel p cs (i + 1) r2 hr2
        exact path_ne_of_index_ne h1 hj (by omega) h12.symm
      · simp at hr1

theorem findInChildren_node (sel : Selector) (p : List Nat) :
    ∀ (cs : List Node) (i : Nat),
      (∀ c ∈ cs, c.type ≠ NodeType.ElementNode → c.children = []) →
      (findInChildren sel p i cs).map NodeRef.node = (subtreeChildren cs).filter sel.Match
  | [], _, _ => by simp [findInChildren, subtreeChildren]
  | c :: cs, i, h => by
    rw [findInChildren, subtreeChildren, List.map_append, List.filter_append,
      findInChildren_node sel p cs (i + 1) (fun x hx => h x (List.mem_cons_of_mem _ hx))]
    congr 1
    by_cases ht : c.type = NodeType.ElementNode
    · rw [if_pos ht]
      exact matchAll_node _ (i :: p) c
    · rw [if_neg ht, subtree_leaf c (h c (List.mem_cons_self _ _) ht)]
      have : sel.Match c = false := by
        cases hm : sel.Match c
        · rfl
        · exact absurd (Match_element sel c hm) ht
      simp [this]

theorem isInSlice_eq_false (target : List NodeRef) (n : NodeRef)
    (h : n.path ∉ target.map NodeRef.path) : isInSlice target n = false := by
  unfold isInSlice
  rw [List.any_eq_false]
  intro x hx hxe
  apply h
  rw [List.mem_map]
  exact ⟨x, hx, by simpa using hxe⟩

theorem appendWithoutDuplicates_of_nodup :
    ∀ (nodes target : List NodeRef), ((target ++ nodes).map NodeRef.path).Nodup →
      appendWithoutDuplicates target nodes = target ++ nodes
  | [], target, _ => by simp [appendWithoutDuplicates]
  | n :: nodes, target, h => by
    have hn : n.path ∉ target.map NodeRef.path := by
      rw [List.map_append, List.nodup_append] at h
      intro hmem
      exact h.2.2 hmem (by simp)
    rw [appendWithoutDuplicates, isInSlice_eq_false target n hn]
    simp only [Bool.false_eq_true, if_false]
    rw [appendWithoutDuplicates_of_nodup nodes (target ++ [n]) (by simpa using h)]
    simp

theorem findWithMatcher_single (r : NodeRef) (sel : Selector) :
    findWithMatcher [r] sel = findInChildren sel r.path 0 r.node.children := by
  unfold findWithMatcher mapNodes
  simp only [mapNodesLoop]
  split
  · exact (appendWithoutDuplicates_of_nodup _ [] (by
      simpa using findInChildren_nodup sel r.path r.node.children 0)).trans (by simp)
  · rename_i h
    have : (findInChildren sel r.path 0 r.node.children).length = 0 := by omega
    exact (List.length_eq_zero.1 this).symm

/-- The nodes that `Find` selects below one node of a parsed tree are the nodes
strictly below it that match, in document order. -/
theorem Find_single (p : List Nat) (n : Node) (sel : Selector) (hn : parsed n = true) :
    ((Selection.mk [⟨p, n⟩]).Find sel).Nodes.map NodeRef.node = matching sel n := by
  unfold Selection.Find matching descendants
  simp only
  rw [findWithMatcher_single]
  exact findInChildren_node sel p n.children 0 (parsed_child n hn)

theorem textOfNodes_eq : ∀ (ns : List NodeRef), textOfNodes ns = textOfAll (ns.map NodeRef.node)
  | [] => rfl
  | n :: ns => by simp [textOfNodes, textOfAll, textOfNodes_eq ns]

theorem AttrOr_src_eq (ns : List NodeRef) :
    (Selection.mk ns).AttrOr (lit "src") (lit "") = srcOfFirst (ns.map NodeRef.node) := by
  cases ns with
  | nil => rfl
  | cons n ns =>
    simp only [Selection.AttrOr, List.map_cons, srcOfFirst]
    cases getAttributeValue (lit "src") n.node <;> rfl

theorem Text_single (p : List Nat) (n : Node) (sel : Selector) (hn : parsed n = true) :
    ((Selection.mk [⟨p, n⟩]).Find sel).Text = textOfAll (matching sel n) := by
  rw [← Find_single p n sel hn, Selection.Text, textOfNodes_eq]

/-- On a card of a parsed tree the closure of `Each` builds `recordOf`. -/
theorem member_single (p : List Nat) (n : Node) (hn : parsed n = true) :
    member ⟨[⟨p, n⟩]⟩ = recordOf n := by
  unfold member recordOf image_path
  rw [Text_single p n _ hn, Text_single p n _ hn, Text_single p n _ hn, Text_single p n _ hn]
  rw [show (Selection.mk [⟨p, n⟩]).Find img = Selection.mk ((Selection.mk [⟨p, n⟩]).Find img).Nodes
    from rfl, AttrOr_src_eq, Find_single p n img hn]
  rfl

theorem eachLoop_append (g : Selection → Member) :
    ∀ (ns : List NodeRef) (i : Nat) (st : List Member),
      eachLoop (fun _ s members => members ++ [g s]) i ns st
        = st ++ ns.map (fun n => g ⟨[n]⟩)
  | [], _, st => by simp [eachLoop]
  | n :: ns, i, st => by
    rw [eachLoop, eachLoop_append g ns (i + 1)]
    simp

theorem collectMembers_eq (doc : Node) :
    collectMembers doc =
      ((documentSelection doc).Find userCard).Nodes.map (fun r => member ⟨[r]⟩) := by
  unfold collectMembers Selection.Each
  rw [eachLoop_append member]
  simp

/-- The members collected from a parsed document are the records of the nodes that
match `.user-card`, in document order. -/
theorem collectMembers_parsed (doc : Node) (hdoc : parsed doc = true) :
    collectMembers doc = (matching userCard doc).map recordOf := by
  rw [collectMembers_eq, ← Find_single [] doc userCard hdoc, List.map_map]
  apply List.map_congr_left
  intro r hr
  have hmem : r.node ∈ matching userCard doc := by
    rw [← Find_single [] doc userCard hdoc]
    exact List.mem_map_of_mem _ hr
  have hd : r.node ∈ descendants doc := (List.mem_filter.1 hmem).1
  exact member_single r.path r.node (parsed_of_mem doc r.node hdoc hd)

/-! ## The claims -/

theorem getMembers_ok (c : Context) (w : World) (res : http.Response) (doc : Node)
    (hget : w.Get (lit "https://omusp.jp/members") = .ok res)
    (hcode : res.StatusCode = 200)
    (hparse : w.NewDocumentFromReader res.Body = .ok doc) :
    getMembers c w =
      { reply := ⟨200, .Members (collectMembers doc)⟩
        trace := [.Get (lit "https://omusp.jp/members"), .Close] } := by
  unfold getMembers
  rw [hget]
  simp only [hcode, ne_eq, not_true_eq_false, if_false]
  rw [hparse]
  rfl

/-- C1: when the fetch succeeds with status 200 and the body parses to a document
with exactly `N` nodes matching `.user-card`, the reply of `getMembers` holds
exactly `N` members, and the `i`-th member is the record that the closure of `Each`
builds from the `i`-th matching card in document order. -/
theorem getMembers_one_record_per_card (c : Context) (w : World) (res : http.Response)
    (doc : Node) (N : Nat)
    (hget : w.Get (lit "https://omusp.jp/members") = .ok res)
    (hcode : res.StatusCode = 200)
    (hparse : w.NewDocumentFromReader res.Body = .ok doc)
    (hdoc : parsed doc = true)
    (hN : (matching userCard doc).length = N) :
    ∃ members : List Member,
      (getMembers c w).reply = ⟨200, .Members members⟩ ∧ members.length = N ∧
      ∀ i, i < N → ∃ card, (matching userCard doc)[i]? = some card ∧
        members[i]? = some (recordOf card) ∧
        ∀ p, member ⟨[⟨p, card⟩]⟩ = recordOf card := by
  refine ⟨collectMembers doc, ?_, ?_, ?_⟩
  · rw [getMembers_ok c w res doc hget hcode hparse]
  · rw [collectMembers_parsed doc hdoc, List.length_map, hN]
  · intro i hi
    have hlt : i < (matching userCard doc).length := by omega
    refine ⟨(matching userCard doc)[i], List.getElem?_eq_getElem hlt, ?_, ?_⟩
    · rw [collectMembers_parsed doc hdoc, List.getElem?_map, List.getElem?_eq_getElem hlt]
      rfl
    · intro p
      have hmem : (matching userCard doc)[i] ∈ matching userCard doc := List.getElem_mem _
      exact member_single p _ (parsed_of_mem doc _ hdoc (List.mem_filter.1 hmem).1)

theorem getMembers_one_record_per_card_witness :
    parsed sparseDoc = true ∧ (matching userCard sparseDoc).length = 2 ∧
    ∃ members : List Member,
      (getMembers (get "/api/members") (answering 200 "200 OK" sparseDoc)).reply
        = ⟨200, .Members members⟩ ∧ members.length = 2 ∧
      ∀ i, i < 2 → ∃ card, (matching userCard sparseDoc)[i]? = some card ∧
        members[i]? = some (recordOf card) ∧
        ∀ p, member ⟨[⟨p, card⟩]⟩ = recordOf card :=
  ⟨by decide, by decide,
    getMembers_one_record_per_card (get "/api/members") (answering 200 "200 OK" sparseDoc)
      ⟨lit "200 OK", 200, ⟨[], none⟩⟩ sparseDoc 2 rfl rfl rfl (by decide) (by decide)⟩

theorem textOfAll_nil : textOfAll [] = [] := rfl

theorem recordOf_ImgPath_nil (card : Node) (h : srcOfFirst (matching img card) = []) :
    (recordOf card).ImgPath = [] := by
  unfold recordOf
  simp only [h]
  rfl

/-- C2: when the fetch succeeds with status 200 and the body parses, the reply is a
200 with one record per card, and in the record of each card every field is read
from the nodes matching its own selector alone: a text field whose selector matches
no node is the empty string, and `img_path` is the empty string when there is no
`img` or the first `img` has no `src`; the record is emitted all the same. -/
theorem missing_field_is_empty_string (c : Context) (w : World) (res : http.Response)
    (doc : Node)
    (hget : w.Get (lit "https://omusp.jp/members") = .ok res)
    (hcode : res.StatusCode = 200)
    (hparse : w.NewDocumentFromReader res.Body = .ok doc)
    (hdoc : parsed doc = true) :
    ∃ members : List Member,
      (getMembers c w).reply = ⟨200, .Members members⟩ ∧
      members.length = (matching userCard doc).length ∧
      ∀ (i : Nat) (card : Node), (matching userCard doc)[i]? = some card →
        ∃ m : Member, members[i]? = some m ∧
          m.Grade = textOfAll (matching userPos card) ∧
          m.Name = textOfAll (matching userNameJa card) ∧
          m.NameEn = textOfAll (matching userNameEng card) ∧
          m.Bio = textOfAll (matching userEmail card) ∧
          m.ImgPath = strings.Replace (srcOfFirst (matching img card)) domain [] 1
            (by decide) ∧
          (matching userPos card = [] → m.Grade = []) ∧
          (matching userNameJa card = [] → m.Name = []) ∧
          (matching userNameEng card = [] → m.NameEn = []) ∧
          (matching userEmail card = [] → m.Bio = []) ∧
          (matching img card = [] → m.ImgPath = []) ∧
          (∀ im more, matching img card = im :: more →
            getAttributeValue (lit "src") im = none → m.ImgPath = []) := by
  refine ⟨collectMembers doc, ?_, ?_, ?_⟩
  · rw [getMembers_ok c w res doc hget hcode hparse]
  · rw [collectMembers_parsed doc hdoc, List.length_map]
  · intro i card hi
    refine ⟨recordOf card, ?_, rfl, rfl, rfl, rfl, rfl, ?_, ?_, ?_, ?_, ?_, ?_⟩
    · rw [collectMembers_parsed doc hdoc, List.getElem?_map, hi]
      rfl
    · intro h; simp only [recordOf, h, textOfAll_nil]
    · intro h; simp only [recordOf, h, textOfAll_nil]
    · intro h; simp only [recordOf, h, textOfAll_nil]
    · intro h; simp only [recordOf, h, textOfAll_nil]
    · intro h
      exact recordOf_ImgPath_nil card (by rw [h]; rfl)
    · intro im more h hsrc
      exact recordOf_ImgPath_nil card (by rw [h]; simp [srcOfFirst, hsrc])

theorem missing_field_is_empty_string_witness :
    parsed sparseDoc = true ∧
    (getMembers (get "/api/members") (answering 200 "200 OK" sparseDoc)).reply
      = ⟨200, .Members [⟨[], [], [], lit "a@example.com", []⟩, ⟨[], [], [], [], []⟩]⟩ ∧
    ∃ members : List Member,
      (getMembers (get "/api/members") (answering 200 "200 OK" sparseDoc)).reply
        = ⟨200, .Members members⟩ ∧
      members.length = (matching userCard sparseDoc).length ∧
      ∀ (i : Nat) (card : Node), (matching userCard sparseDoc)[i]? = some card →
        ∃ m : Member, members[i]? = some m ∧
          m.Grade = textOfAll (matching userPos card) ∧
          m.Name = textOfAll (matching userNameJa card) ∧
          m.NameEn = textOfAll (matching userNameEng card) ∧
          m.Bio = textOfAll (matching userEmail card) ∧
          m.ImgPath = strings.Replace (srcOfFirst (matching img card)) domain [] 1
            (by decide) ∧
          (matching userPos card = [] → m.Grade = []) ∧
          (matching userNameJa card = [] → m.Name = []) ∧
          (matching userNameEng card = [] → m.NameEn = []) ∧
          (matching userEmail card = [] → m.Bio = []) ∧
          (matching img card = [] → m.ImgPath = []) ∧
          (∀ im more, matching img card = im :: more →
            getAttributeValue (lit "src") im = none → m.ImgPath = []) :=
  ⟨by decide, by decide,
    missing_field_is_empty_string (get "/api/members") (answering 200 "200 OK" sparseDoc)
      ⟨lit "200 OK", 200, ⟨[], none⟩⟩ sparseDoc rfl rfl rfl (by decide)⟩

theorem lit_empty : lit "" = [] := rfl

theorem ImgPath_eq (s : Selection) :
    (member s).ImgPath =
      strings.Replace ((s.Find img).AttrOr (lit "src") (lit "")) domain [] 1 (by decide) :=
  rfl

/-- C3, as stated, fails: the only `img` of `proxiedCard` has the `src`
`/proxy?u=https://omusp.jp/img/a.png`, which does not begin with the domain, and the
`img_path` built from it is `/proxy?u=/img/a.png`, not the `src`. -/
theorem img_path_changed_without_leading_domain :
    ((Selection.mk [⟨[], proxiedCard⟩]).Find img).AttrOr (lit "src") (lit "")
      = lit "/proxy?u=https://omusp.jp/img/a.png" ∧
    ¬ domain <+: lit "/proxy?u=https://omusp.jp/img/a.png" ∧
    (member ⟨[⟨[], proxiedCard⟩]⟩).ImgPath = lit "/proxy?u=/img/a.png" ∧
    (member ⟨[⟨[], proxiedCard⟩]⟩).ImgPath ≠ lit "/proxy?u=https://omusp.jp/img/a.png" := by
  decide

theorem img_path_unchanged_iff_domain_absent (s : Selection) :
    (member s).ImgPath = (s.Find img).AttrOr (lit "src") (lit "") ↔
      ¬ domain <:+: (s.Find img).AttrOr (lit "src") (lit "") := by
  rw [ImgPath_eq]
  constructor
  · intro h hin
    have hlen := Replace_one_empty_length _ domain (by decide) hin
    rw [h] at hlen
    have : domain.length = 16 := by decide
    omega
  · intro h
    exact Replace_one_of_absent _ domain [] (by decide) (by decide) h

/-- C3, amended: if the `src` value read from a card does not contain the domain
`https://omusp.jp` anywhere, the `img_path` equals that value unchanged. -/
theorem img_path_unchanged_without_domain (s : Selection)
    (h : ¬ domain <:+: (s.Find img).AttrOr (lit "src") (lit "")) :
    (member s).ImgPath = (s.Find img).AttrOr (lit "src") (lit "") :=
  (img_path_unchanged_iff_domain_absent s).2 h

theorem img_path_unchanged_without_domain_witness :
    ((Selection.mk [⟨[], localCard⟩]).Find img).AttrOr (lit "src") (lit "")
      = lit "/img/local.png" ∧
    ¬ domain <:+: lit "/img/local.png" ∧
    (member ⟨[⟨[], localCard⟩]⟩).ImgPath = lit "/img/local.png" :=
  ⟨by decide, by decide,
    img_path_unchanged_without_domain ⟨[⟨[], localCard⟩]⟩ (by decide)⟩

/-- C4: if the `src` value read from a card is the domain `https://omusp.jp` followed
by `rest`, the `img_path` is `rest`, whatever `rest` holds. -/
theorem img_path_strips_leading_domain (s : Selection) (rest : GoString)
    (h : (s.Find img).AttrOr (lit "src") (lit "") = domain ++ rest) :
    (member s).ImgPath = rest := by
  rw [ImgPath_eq, h]
  exact Replace_one_of_append domain rest [] (by decide) (by decide)

theorem img_path_strips_leading_domain_witness :
    ((Selection.mk [⟨[], doubledCard⟩]).Find img).AttrOr (lit "src") (lit "")
      = domain ++ lit "/r?next=https://omusp.jp/img/a.png" ∧
    (member ⟨[⟨[], doubledCard⟩]⟩).ImgPath = lit "/r?next=https://omusp.jp/img/a.png" :=
  ⟨by decide,
    img_path_strips_leading_domain ⟨[⟨[], doubledCard⟩]⟩
      (lit "/r?next=https://omusp.jp/img/a.png") (by decide)⟩

/-- C5: when the fetch succeeds with status 200 and the body parses to a document
whose only card holds exactly one node for each of `.user-name-ja`, `.user-name-eng`,
`.user-pos` and `.user-email` and one `img` whose `src` is the domain followed by
`path`, the reply holds the single member made of the texts of those four nodes and
of `path`. -/
theorem single_card_yields_single_member (c : Context) (w : World) (res : http.Response)
    (doc card ja eng pos email image : Node) (path : GoString)
    (hget : w.Get (lit "https://omusp.jp/members") = .ok res)
    (hcode : res.StatusCode = 200)
    (hparse : w.NewDocumentFromReader res.Body = .ok doc)
    (hdoc : parsed doc = true)
    (hcard : matching userCard doc = [card])
    (hja : matching userNameJa card = [ja])
    (heng : matching userNameEng card = [eng])
    (hpos : matching userPos card = [pos])
    (hemail : matching userEmail card = [email])
    (himg : matching img card = [image])
    (hsrc : getAttributeValue (lit "src") image = some (domain ++ path)) :
    (getMembers c w).reply =
      ⟨200, .Members
        [{ Grade := textOf pos, Name := textOf ja, NameEn := textOf eng,
           Bio := textOf email, ImgPath := path }]⟩ := by
  rw [getMembers_ok c w res doc hget hcode hparse, collectMembers_parsed doc hdoc, hcard]
  simp only [List.map_cons, List.map_nil, recordOf, hja, heng, hpos, hemail, himg,
    textOfAll, srcOfFirst, hsrc, Option.getD_some, List.append_nil]
  rw [Replace_one_of_append domain path [] (by decide) (by decide)]
  rfl

theorem single_card_yields_single_member_witness :
    parsed taroDoc = true ∧
    (getMembers (get "/api/members") (answering 200 "200 OK" taroDoc)).reply =
      ⟨200, .Members
        [{ Grade := lit "B4", Name := lit "山田太郎", NameEn := lit "Taro Yamada",
           Bio := lit "taro@example.com", ImgPath := lit "/img/taro.png" }]⟩ :=
  ⟨by decide,
    single_card_yields_single_member (get "/api/members") (answering 200 "200 OK" taroDoc)
      ⟨lit "200 OK", 200, ⟨[], none⟩⟩ taroDoc taroCard
      (el "p" "user-name-ja" [txt "山田太郎"]) (el "p" "user-name-eng" [txt "Taro Yamada"])
      (el "p" "user-pos" [txt "B4"]) (el "p" "user-email" [txt "taro@example.com"])
      (.mk .ElementNode (lit "img") [⟨[], lit "src", lit "https://omusp.jp/img/taro.png"⟩] [])
      (lit "/img/taro.png") rfl rfl rfl (by decide) rfl rfl rfl rfl rfl rfl rfl⟩

theorem getMembers_unreachable (c : Context) (w : World) (err : GoError)
    (hget : w.Get (lit "https://omusp.jp/members") = .error err) :
    getMembers c w =
      { reply := ⟨500, .Error (lit "Failed to get members, cannot connect to omusp.jp")⟩
        trace := [.Get (lit "https://omusp.jp/members"), .Println err] } := by
  unfold getMembers
  rw [hget]
  rfl

theorem getMembers_bad_status (c : Context) (w : World) (res : http.Response)
    (hget : w.Get (lit "https://omusp.jp/members") = .ok res)
    (hcode : res.StatusCode ≠ 200) :
    getMembers c w =
      { reply := ⟨500,
          .Error (lit "Failed to get members, omusp.jp returned non-200 status code")⟩
        trace := [.Get (lit "https://omusp.jp/members"),
          .Printf (lit "status code error: %d %s") res.StatusCode res.Status, .Close] } := by
  unfold getMembers
  rw [hget]
  simp only [hcode, ne_eq, not_false_eq_true, if_true]
  rfl

theorem getMembers_unparsed (c : Context) (w : World) (res : http.Response) (err : GoError)
    (hget : w.Get (lit "https://omusp.jp/members") = .ok res)
    (hcode : res.StatusCode = 200)
    (hparse : w.NewDocumentFromReader res.Body = .error err) :
    getMembers c w =
      { reply := ⟨500,
          .Error (lit "Failed to get members, cannot parse HTML from omusp.jp")⟩
        trace := [.Get (lit "https://omusp.jp/members"), .Println err, .Close] } := by
  unfold getMembers
  rw [hget]
  simp only [hcode, ne_eq, not_true_eq_false, if_false]
  rw [hparse]
  rfl

/-- C6: the reply of `getMembers` is either a 200 holding all the members collected
from the parsed document, or a 500 holding one of the three fixed messages and no
member; it is a 200 exactly when the fetch succeeds, the upstream status is 200 and
the body parses, whatever the number of cards, and with no card it is a 200 with an
empty list. -/
theorem getMembers_all_or_nothing (c : Context) (w : World) :
    ((∃ res doc, w.Get (lit "https://omusp.jp/members") = .ok res ∧ res.StatusCode = 200 ∧
          w.NewDocumentFromReader res.Body = .ok doc ∧
          (getMembers c w).reply = ⟨200, .Members (collectMembers doc)⟩) ∨
      (∃ msg, msg ∈ [lit "Failed to get members, cannot connect to omusp.jp",
            lit "Failed to get members, omusp.jp returned non-200 status code",
            lit "Failed to get members, cannot parse HTML from omusp.jp"] ∧
          (getMembers c w).reply = ⟨500, .Error msg⟩)) ∧
    ((getMembers c w).reply.code = 200 ↔
      ∃ res doc, w.Get (lit "https://omusp.jp/members") = .ok res ∧ res.StatusCode = 200 ∧
        w.NewDocumentFromReader res.Body = .ok doc) ∧
    ((getMembers c w).reply.code = 200 ∨ (getMembers c w).reply.code = 500) ∧
    ((getMembers c w).reply.code = 500 →
      ∀ members, (getMembers c w).reply.body ≠ .Members members) ∧
    (∀ res doc, w.Get (lit "https://omusp.jp/members") = .ok res → res.StatusCode = 200 →
      w.NewDocumentFromReader res.Body = .ok doc → parsed doc = true →
      matching userCard doc = [] → (getMembers c w).reply = ⟨200, .Members []⟩) := by
  have hzero : ∀ res doc, w.Get (lit "https://omusp.jp/members") = .ok res →
      res.StatusCode = 200 → w.NewDocumentFromReader res.Body = .ok doc →
      parsed doc = true → matching userCard doc = [] →
      (getMembers c w).reply = ⟨200, .Members []⟩ := by
    intro res doc hget hcode hparse hdoc hnone
    rw [getMembers_ok c w res doc hget hcode hparse, collectMembers_parsed doc hdoc, hnone]
    rfl
  cases hget : w.Get (lit "https://omusp.jp/members") with
  | error err =>
    have h := getMembers_unreachable c w err hget
    refine ⟨Or.inr ⟨lit "Failed to get members, cannot connect to omusp.jp", by simp, by rw [h]⟩,
        ?_, ?_, ?_, ?_⟩
    · rw [h]
      constructor
      · intro h2; exact absurd h2 (by simp)
      · rintro ⟨res, doc, h1, _⟩; cases h1
    · right; rw [h]
    · intro _ members; rw [h]; simp
    · intro res doc h1; cases h1
  | ok res =>
    by_cases hcode : res.StatusCode = 200
    · cases hparse : w.NewDocumentFromReader res.Body with
      | error err =>
        have h := getMembers_unparsed c w res err hget hcode hparse
        refine ⟨Or.inr ⟨lit "Failed to get members, cannot parse HTML from omusp.jp", by simp, by rw [h]⟩,
        ?_, ?_, ?_, ?_⟩
        · rw [h]
          constructor
          · intro h2; exact absurd h2 (by simp)
          · rintro ⟨res2, doc, h1, _, h3⟩
            cases h1
            rw [hparse] at h3
            cases h3
        · right; rw [h]
        · intro _ members; rw [h]; simp
        · intro res2 doc h1 _ h3
          cases h1
          rw [hparse] at h3
          cases h3
      | ok doc =>
        have h := getMembers_ok c w res doc hget hcode hparse
        refine ⟨Or.inl ⟨res, doc, rfl, hcode, hparse, by rw [h]⟩, ?_, ?_, ?_, ?_⟩
        · rw [h]
          exact ⟨fun _ => ⟨res, doc, rfl, hcode, hparse⟩, fun _ => rfl⟩
        · left; rw [h]
        · rw [h]; intro h2; exact absurd h2 (by simp)
        · intro res2 doc2 h1 h2 h3 h4 h5
          exact hzero res2 doc2 (by rw [hget, h1]) h2 h3 h4 h5
    · have h := getMembers_bad_status c w res hget hcode
      refine ⟨Or.inr ⟨lit "Failed to get members, omusp.jp returned non-200 status code", by simp, by rw [h]⟩,
        ?_, ?_, ?_, ?_⟩
      · rw [h]
        constructor
        · intro h2; exact absurd h2 (by simp)
        · rintro ⟨res2, doc, h1, h2, _⟩
          cases h1
          exact absurd h2 hcode
      · right; rw [h]
      · intro _ members; rw [h]; simp
      · intro res2 doc h1 h2
        cases h1
        exact absurd h2 hcode

theorem getMembers_all_or_nothing_witness :
    parsed emptyDoc = true ∧ matching userCard emptyDoc = [] ∧
    (getMembers (get "/api/members") (answering 200 "200 OK" emptyDoc)).reply
      = ⟨200, .Members []⟩ :=
  ⟨by decide, rfl,
    (getMembers_all_or_nothing (get "/api/members")
      (answering 200 "200 OK" emptyDoc)).2.2.2.2
      ⟨lit "200 OK", 200, ⟨[], none⟩⟩ emptyDoc rfl rfl rfl (by decide) rfl⟩

/-- C7: when the fetch succeeds at the transport level, `getMembers` replies 500 with
the message `Failed to get members, omusp.jp returned non-200 status code` if and
only if the upstream status code is not 200, whatever the parser would do with the
body. -/
theorem non_200_status_iff (c : Context) (w : World) (res : http.Response)
    (hget : w.Get (lit "https://omusp.jp/members") = .ok res) :
    (getMembers c w).reply =
        ⟨500, .Error (lit "Failed to get members, omusp.jp returned non-200 status code")⟩
      ↔ res.StatusCode ≠ 200 := by
  constructor
  · intro h hcode
    cases hparse : w.NewDocumentFromReader res.Body with
    | error err =>
      rw [getMembers_unparsed c w res err hget hcode hparse] at h
      have hne : lit "Failed to get members, cannot parse HTML from omusp.jp"
          ≠ lit "Failed to get members, omusp.jp returned non-200 status code" := by decide
      dsimp only at h
      injection h with _ hb
      injection hb with hs
      exact hne hs
    | ok doc =>
      rw [getMembers_ok c w res doc hget hcode hparse] at h
      simp at h
  · intro hcode
    rw [getMembers_bad_status c w res hget hcode]

theorem non_200_status_iff_witness :
    ((getMembers (get "/api/members") (answering 404 "404 Not Found" taroDoc)).reply =
        ⟨500, .Error (lit "Failed to get members, omusp.jp returned non-200 status code")⟩
      ↔ (404 : Int) ≠ 200) ∧
    ((getMembers (get "/api/members") (answering 204 "204 No Content" taroDoc)).reply =
        ⟨500, .Error (lit "Failed to get members, omusp.jp returned non-200 status code")⟩
      ↔ (204 : Int) ≠ 200) :=
  ⟨non_200_status_iff (get "/api/members") (answering 404 "404 Not Found" taroDoc)
      ⟨lit "404 Not Found", 404, ⟨[], none⟩⟩ rfl,
    non_200_status_iff (get "/api/members") (answering 204 "204 No Content" taroDoc)
      ⟨lit "204 No Content", 204, ⟨[], none⟩⟩ rfl⟩

/-- C8: when the fetch fails at the transport level, `getMembers` replies 500 with
the value `{Error: "Failed to get members, cannot connect to omusp.jp"}`; besides the
fetch it only logs the error, it reads no status, parses no body and closes
nothing, and the outcome is the same in any world whose fetch fails alike. -/
theorem cannot_connect_reply (c : Context) (w : World) (err : GoError)
    (hget : w.Get (lit "https://omusp.jp/members") = .error err) :
    (getMembers c w).reply =
        ⟨500, .Error (lit "Failed to get members, cannot connect to omusp.jp")⟩ ∧
    (getMembers c w).trace = [.Get (lit "https://omusp.jp/members"), .Println err] ∧
    ∀ (c2 : Context) (w2 : World), w2.Get (lit "https://omusp.jp/members") = .error err →
      getMembers c2 w2 = getMembers c w := by
  refine ⟨?_, ?_, ?_⟩
  · rw [getMembers_unreachable c w err hget]
  · rw [getMembers_unreachable c w err hget]
  · intro c2 w2 h2
    rw [getMembers_unreachable c w err hget, getMembers_unreachable c2 w2 err h2]

theorem cannot_connect_reply_witness :
    (getMembers (get "/api/members") unreachable).reply =
        ⟨500, .Error (lit "Failed to get members, cannot connect to omusp.jp")⟩ ∧
    (getMembers (get "/api/members") unreachable).trace =
      [.Get (lit "https://omusp.jp/members"),
        .Println (lit "dial tcp: lookup omusp.jp: no such host")] ∧
    ∀ (c2 : Context) (w2 : World),
      w2.Get (lit "https://omusp.jp/members")
        = .error (lit "dial tcp: lookup omusp.jp: no such host") →
      getMembers c2 w2 = getMembers (get "/api/members") unreachable :=
  cannot_connect_reply (get "/api/members") unreachable
    (lit "dial tcp: lookup omusp.jp: no such host") rfl

/-- C9: the handler that `main` registers for `/health` replies 200 with the value
`{Status: "OK"}` for every request and every world, so its outcome is the same in
any two runs, and its trace is empty: it performs no fetch. -/
theorem health_is_constant (c c2 : Context) (w w2 : World) :
    routes.lookup (lit "/health") = some health ∧
    (health c w).reply = ⟨200, .Status (lit "OK")⟩ ∧
    (health c w).trace = [] ∧
    health c w = health c2 w2 :=
  ⟨rfl, rfl, rfl, rfl⟩

theorem textOfAll_eq_flatten : ∀ (ns : List Node), textOfAll ns = (ns.map textOf).flatten
  | [] => rfl
  | n :: ns => by simp [textOfAll, textOfAll_eq_flatten ns]

theorem textOfAll_append : ∀ (l1 l2 : List Node),
    textOfAll (l1 ++ l2) = textOfAll l1 ++ textOfAll l2
  | [], l2 => by simp [textOfAll]
  | n :: l1, l2 => by simp [textOfAll, textOfAll_append l1 l2]

theorem textOfAll_contiguous {l1 l2 : List Node} (h : l1 <:+: l2) :
    textOfAll l1 <:+: textOfAll l2 := by
  obtain ⟨a, b, rfl⟩ := h
  exact ⟨textOfAll a, textOfAll b, by simp [textOfAll_append]⟩

theorem matching_contiguous (sel : Selector) (outer inner : Node) (h : inner ∈ descendants outer) :
    matching sel inner <:+: matching sel outer :=
  (descendants_contiguous outer inner h).filter _

/-- C10: in the record built from a card of a parsed tree, each text field is the
concatenation, in document order and with nothing added or removed, of the text
contents of all the nodes below the card that match the field's selector; hence for
a card nested inside the card, each text field of the inner record is a contiguous
part of the same field of the outer record. -/
theorem text_fields_concatenate_all_matches (p : List Nat) (card : Node)
    (hcard : parsed card = true) :
    (member ⟨[⟨p, card⟩]⟩).Grade = ((matching userPos card).map textOf).flatten ∧
    (member ⟨[⟨p, card⟩]⟩).Name = ((matching userNameJa card).map textOf).flatten ∧
    (member ⟨[⟨p, card⟩]⟩).NameEn = ((matching userNameEng card).map textOf).flatten ∧
    (member ⟨[⟨p, card⟩]⟩).Bio = ((matching userEmail card).map textOf).flatten ∧
    ∀ (q : List Nat) (inner : Node), inner ∈ matching userCard card →
      (member ⟨[⟨q, inner⟩]⟩).Grade <:+: (member ⟨[⟨p, card⟩]⟩).Grade ∧
      (member ⟨[⟨q, inner⟩]⟩).Name <:+: (member ⟨[⟨p, card⟩]⟩).Name ∧
      (member ⟨[⟨q, inner⟩]⟩).NameEn <:+: (member ⟨[⟨p, card⟩]⟩).NameEn ∧
      (member ⟨[⟨q, inner⟩]⟩).Bio <:+: (member ⟨[⟨p, card⟩]⟩).Bio := by
  rw [member_single p card hcard]
  refine ⟨textOfAll_eq_flatten _, textOfAll_eq_flatten _, textOfAll_eq_flatten _,
    textOfAll_eq_flatten _, ?_⟩
  intro q inner hin
  have hd : inner ∈ descendants card := (List.mem_filter.1 hin).1
  rw [member_single q inner (parsed_of_mem card inner hcard hd)]
  exact ⟨textOfAll_contiguous (matching_contiguous _ card inner hd),
    textOfAll_contiguous (matching_contiguous _ card inner hd),
    textOfAll_contiguous (matching_contiguous _ card inner hd),
    textOfAll_contiguous (matching_contiguous _ card inner hd)⟩

theorem text_fields_concatenate_all_matches_witness :
    parsed nestedCard = true ∧
    (matching userPos nestedCard).length = 2 ∧
    (member ⟨[⟨[], nestedCard⟩]⟩).Grade = lit "M1B4" ∧
    (member ⟨[⟨[], nestedCard⟩]⟩).Grade = ((matching userPos nestedCard).map textOf).flatten ∧
    (member ⟨[⟨[], nestedCard⟩]⟩).Name = lit "太郎" ∧
    (member ⟨[⟨[], nestedCard⟩]⟩).Name = ((matching userNameJa nestedCard).map textOf).flatten :=
  ⟨by decide, by decide, by decide,
    (text_fields_concatenate_all_matches [] nestedCard (by decide)).1, by decide,
    (text_fields_concatenate_all_matches [] nestedCard (by decide)).2.1⟩

end Omusp
